import Mathlib

/-!
# Verification of the `sf` LAN file-transfer tool (final protocol version)

Shallow embedding of the transfer protocol in `src/main.rs`:
the manifest codec of `send` and `recv`, the common-path-prefix
computation, the per-file body reader, the sender's file-copy loop,
and the discovery-datagram address codec
(`serialize_socket_addr` / `deserialize_socket_addr`).

Bytes are modelled as `Nat` (values below 256 on real streams), byte
buffers and streams as `List Nat`, machine integers as `Nat` with
explicit bounds (`u32` values below `2 ^ 32`, `u64` below `2 ^ 64`).
Fallible operations return `Except`.  A Rust panic (slice index out of
range) is modelled as the distinguished outcome `.panicked`, which is
not an error return of the Rust function but a program abort.
-/

namespace SF

/-- The constant `VERSION: u8 = 3` in `main.rs`. -/
def VERSION : Nat := 3

/-- The constant `CHUNK_SIZE: usize = 4 * 1024 * 1024` in `main.rs`. -/
def CHUNK_SIZE : Nat := 4 * 1024 * 1024

/-- Little-endian byte encoding of `n` on `k` bytes, mirroring
`u32::to_le_bytes` (`k = 4`) and `u64::to_le_bytes` (`k = 8`). -/
def toLE : Nat → Nat → List Nat
  | 0, _ => []
  | k + 1, n => n % 256 :: toLE k (n / 256)

/-- Little-endian byte decoding, mirroring `u32::from_le_bytes` and
`u64::from_le_bytes`. -/
def fromLE : List Nat → Nat
  | [] => 0
  | b :: rest => b + 256 * fromLE rest

theorem toLE_length (k n : Nat) : (toLE k n).length = k := by
  induction k generalizing n with
  | zero => rfl
  | succ k ih => simp [toLE, ih]

theorem fromLE_toLE (k n : Nat) (h : n < 256 ^ k) : fromLE (toLE k n) = n := by
  induction k generalizing n with
  | zero =>
    simp [toLE, fromLE]
    omega
  | succ k ih =>
    have hdiv : n / 256 < 256 ^ k := by
      rw [Nat.div_lt_iff_lt_mul (by norm_num)]
      calc n < 256 ^ (k + 1) := h
        _ = 256 ^ k * 256 := by ring
    simp [toLE, fromLE, ih (n / 256) hdiv]
    omega

theorem toLE_fromLE (l : List Nat) (h : ∀ b ∈ l, b < 256) :
    toLE l.length (fromLE l) = l := by
  induction l with
  | nil => rfl
  | cons b rest ih =>
    have hb : b < 256 := h b (List.mem_cons_self b rest)
    have hrest : ∀ x ∈ rest, x < 256 := fun x hx => h x (List.mem_cons_of_mem b hx)
    simp only [List.length_cons, toLE, fromLE]
    have hmod : (b + 256 * fromLE rest) % 256 = b := by omega
    have hdiv : (b + 256 * fromLE rest) / 256 = fromLE rest := by omega
    rw [hmod, hdiv, ih hrest]

/-- Helper: taking exactly the length of the left part of an append. -/
theorem take_append_len {α : Type} (l₁ l₂ : List α) (n : Nat) (h : l₁.length = n) :
    (l₁ ++ l₂).take n = l₁ := by
  subst h
  induction l₁ with
  | nil => simp
  | cons a t ih => simp [ih]

/-- Helper: dropping exactly the length of the left part of an append. -/
theorem drop_append_len {α : Type} (l₁ l₂ : List α) (n : Nat) (h : l₁.length = n) :
    (l₁ ++ l₂).drop n = l₂ := by
  subst h
  induction l₁ with
  | nil => simp
  | cons a t ih => simp [ih]

/-- Byte range test used by the UTF-8 validator. -/
def inRange (lo hi b : Nat) : Bool := decide (lo ≤ b) && decide (b ≤ hi)

/-- Continuation byte test for UTF-8 (`0x80..=0xBF`). -/
def isCont (b : Nat) : Bool := inRange 128 191 b

/-- UTF-8 validity of a byte sequence, mirroring the success condition of
`std::str::from_utf8` used in `recv` (RFC 3629: no overlong forms, no
surrogates, no code points above `U+10FFFF`). -/
def utf8Valid : List Nat → Bool
  | [] => true
  | b :: rest =>
    if b ≤ 127 then utf8Valid rest
    else if b ≤ 193 then false
    else if b ≤ 223 then
      match rest with
      | c1 :: rest2 => isCont c1 && utf8Valid rest2
      | [] => false
    else if b ≤ 239 then
      match rest with
      | c1 :: c2 :: rest2 =>
        (if b = 224 then inRange 160 191 c1
         else if b = 237 then inRange 128 159 c1
         else isCont c1) && isCont c2 && utf8Valid rest2
      | _ => false
    else if b ≤ 244 then
      match rest with
      | c1 :: c2 :: c3 :: rest2 =>
        (if b = 240 then inRange 144 191 c1
         else if b = 244 then inRange 128 143 c1
         else isCont c1) && isCont c2 && isCont c3 && utf8Valid rest2
      | _ => false
    else false

/-- Backslash-to-forward-slash normalization applied by `send` to each
path's bytes (`b'\\' => b'/'`; 92 and 47 are those byte values). -/
def normalizeName (name : List Nat) : List Nat :=
  name.map (fun c => if c = 92 then 47 else c)

theorem normalizeName_of_no_backslash (name : List Nat) (h : ¬ 92 ∈ name) :
    normalizeName name = name := by
  induction name with
  | nil => rfl
  | cons b rest ih =>
    simp only [List.mem_cons, not_or] at h
    simp [normalizeName] at ih ⊢
    exact ⟨fun hb => absurd hb.symm h.1, ih h.2⟩

/-- The per-file records appended to the manifest buffer by the loop in
`send` (`main.rs` lines 46-61): for each file, `file_len` as u64 LE,
the name's byte length as u32 LE (`try_into` fails for lengths of
`2 ^ 32` or more), then the normalized name bytes. -/
def sendRecords : List (Nat × List Nat) → Except Unit (List Nat)
  | [] => .ok []
  | (file_len, name) :: rest =>
    if name.length < 2 ^ 32 then
      match sendRecords rest with
      | .ok r => .ok (toLE 8 file_len ++ toLE 4 name.length ++ normalizeName name ++ r)
      | .error e => .error e
    else .error ()

/-- The manifest buffer built by `send` (`main.rs` lines 44-64): start
from `[b's', b'f', b'-', VERSION, 0, 0, 0, 0]`, append the per-file
records, then overwrite bytes 4..8 with the total buffer length as u32
LE (`try_into` fails when the total does not fit in a u32). -/
def sendManifest (files : List (Nat × List Nat)) : Except Unit (List Nat) :=
  match sendRecords files with
  | .ok recs =>
    let buffer := [115, 102, 45, VERSION, 0, 0, 0, 0] ++ recs
    if buffer.length < 2 ^ 32 then
      .ok (buffer.take 4 ++ toLE 4 buffer.length ++ buffer.drop 8)
    else .error ()
  | .error e => .error e

/-- The raw (already normalized) manifest record bytes for a list of
`(file length, name)` entries, as they appear inside the manifest body. -/
def rawRecords : List (Nat × List Nat) → List Nat
  | [] => []
  | (file_len, name) :: rest =>
    toLE 8 file_len ++ toLE 4 name.length ++ name ++ rawRecords rest

/-- Outcomes of the receiving side in `recv`.  The error constructors
mirror the code's error returns (`"bad header"`, `"incompatible
version"`, the `std::str::from_utf8` error, the truncated-transfer
error string, and a `read_exact` end-of-stream I/O error); `.panicked`
models a Rust panic (out-of-bounds slice index), which aborts the
process instead of returning an error. -/
inductive RecvErr
  | streamEnded
  | badHeader
  | incompatibleVersion
  | invalidUtf8
  | panicked
  | truncated
deriving DecidableEq

/-- The record-parsing loop of `recv` (`main.rs` lines 143-168) over the
manifest body: while bytes remain, slice 8 bytes of u64 LE file length,
4 bytes of u32 LE name length, then `name_len` bytes of name (an
out-of-bounds slice is a panic), and require the name to be valid UTF-8
(`std::str::from_utf8(name)?`). -/
def parseRecords (body : List Nat) : Except RecvErr (List (Nat × List Nat)) :=
  if h0 : body = [] then .ok []
  else if h8 : body.length < 8 then .error .panicked
  else if h4 : (body.drop 8).length < 4 then .error .panicked
  else if hn : ((body.drop 8).drop 4).length < fromLE ((body.drop 8).take 4) then
    .error .panicked
  else if utf8Valid (((body.drop 8).drop 4).take (fromLE ((body.drop 8).take 4))) then
    match parseRecords (((body.drop 8).drop 4).drop (fromLE ((body.drop 8).take 4))) with
    | .ok entries =>
      .ok ((fromLE (body.take 8),
            ((body.drop 8).drop 4).take (fromLE ((body.drop 8).take 4))) :: entries)
    | .error e => .error e
  else .error .invalidUtf8
termination_by body.length
decreasing_by
  simp only [List.length_drop] at *
  omega

/-- The manifest-decoding phase of `recv` (`main.rs` lines 118-168):
read 4 header bytes and check the magic `"sf-"` (bytes 115, 102, 45)
and the version byte, read a 4-byte u32 LE total length, read
`total - 8` further bytes as the manifest body, and run the record
loop on that body.  A total below 8 underflows the `buffer_len - 8`
subtraction (a program error, modelled as `.panicked`); a stream that
ends before a `read_exact` completes is an I/O error. -/
def recvDecode (stream : List Nat) : Except RecvErr (List (Nat × List Nat)) :=
  if stream.length < 4 then .error .streamEnded
  else if stream.take 3 ≠ [115, 102, 45] then .error .badHeader
  else if stream.getD 3 0 ≠ VERSION then .error .incompatibleVersion
  else if (stream.drop 4).length < 4 then .error .streamEnded
  else if fromLE ((stream.drop 4).take 4) < 8 then .error .panicked
  else if (stream.drop 8).length < fromLE ((stream.drop 4).take 4) - 8 then
    .error .streamEnded
  else parseRecords ((stream.drop 8).take (fromLE ((stream.drop 4).take 4) - 8))

/-- The mode `args::PathPrefix`: whether the caller requested common-prefix
stripping (`-s` / `--strip-prefix`). -/
inductive PathPrefix
  | keep
  | strip

/-- One step of the running-common-path computation in `recv`
(`main.rs` lines 156-165): find the position of the first differing
byte of `zip(running, name)`; if there is one, shrink the running
value to that position, otherwise keep it unchanged. -/
def shrinkCommon (running name : List Nat) : List Nat :=
  match (running.zip name).findIdx? (fun xy => xy.1 != xy.2) with
  | some equal_up_to => running.take equal_up_to
  | none => running

/-- The accumulator update applied per manifest entry in `recv`. -/
def stepCommon (acc : Option (List Nat)) (name : List Nat) : Option (List Nat) :=
  some (match acc with
    | none => name
    | some c => shrinkCommon c name)

/-- The running common value after folding all entry names, starting
from `Some(&buffer[..0])` (an empty slice) in `Keep` mode and `None`
in `Strip` mode (`main.rs` lines 137-141). -/
def runningCommon (p : PathPrefix) (names : List (List Nat)) : Option (List Nat) :=
  names.foldl stepCommon (match p with | .keep => some [] | .strip => none)

/-- The `rposition` of a path-separator byte (`b'/'` = 47 or `b'\\'` = 92)
in a byte string, as used on the final common value
(`main.rs` lines 174-183). -/
def rpositionSep (l : List Nat) : Option Nat :=
  match l.reverse.findIdx? (fun c => c == 47 || c == 92) with
  | some j => some (l.length - 1 - j)
  | none => none

/-- The number of leading bytes stripped from every path when
materializing files: the index just after the last separator found in
the final common value, or 0 when no separator exists
(`main.rs` lines 170-183). -/
def commonPrefixLen (p : PathPrefix) (names : List (List Nat)) : Nat :=
  match rpositionSep ((runningCommon p names).getD []) with
  | some sep_idx => sep_idx + 1
  | none => 0

/-- The per-file body-reading loop of `recv` (`main.rs` lines 204-213):
while `file_len` is not zero, read at most `min file_len CHUNK_SIZE`
bytes from the stream (a TCP read returns up to the requested count;
modelled as returning everything available up to the request), fail
with the truncated-transfer error when a read returns zero bytes, and
write each chunk to the destination file.  Returns the bytes written
to the file and the unconsumed remainder of the stream. -/
def recvFile (file_len : Nat) (stream : List Nat) :
    Except RecvErr (List Nat × List Nat) :=
  if h0 : file_len = 0 then .ok ([], stream)
  else if hn : min (min file_len CHUNK_SIZE) stream.length = 0 then .error .truncated
  else
    match recvFile (file_len - min (min file_len CHUNK_SIZE) stream.length)
        (stream.drop (min (min file_len CHUNK_SIZE) stream.length)) with
    | .ok (w, rest) =>
      .ok (stream.take (min (min file_len CHUNK_SIZE) stream.length) ++ w, rest)
    | .error e => .error e
termination_by file_len
decreasing_by omega

/-- The outer materialization loop of `recv` (`main.rs` lines 189-214)
restricted to the stream: each entry's declared byte count is read from
the stream in manifest order; the first failure aborts the session.
Returns the list of file bodies written. -/
def recvFiles (entries : List (Nat × List Nat)) (stream : List Nat) :
    Except RecvErr (List (List Nat)) :=
  match entries with
  | [] => .ok []
  | (file_len, _) :: rest =>
    match recvFile file_len stream with
    | .ok (w, s2) =>
      match recvFiles rest s2 with
      | .ok ws => .ok (w :: ws)
      | .error e => .error e
    | .error e => .error e

/-- A source file on the sending side: its path bytes, the length
reported by `fs::metadata`, whether `File::open` succeeds, and the
successive results of `file.read` calls (an empty chunk is end of
file; once the list is exhausted every further read yields 0 bytes). -/
structure SrcFile where
  path : List Nat
  meta : Nat
  openOk : Bool
  reads : List (Except Unit (List Nat))

/-- The copy loop of `send` (`main.rs` lines 83-88):
`while let Ok(n) = file.read(..)` — stop at a zero-byte read, append
each chunk to the stream; a read `Err` merely exits the loop (the
`while let` pattern fails) without surfacing any error. -/
def copyLoop : List (Except Unit (List Nat)) → List Nat
  | [] => []
  | .ok chunk :: rest => if chunk.length = 0 then [] else chunk ++ copyLoop rest
  | .error _ :: _ => []

/-- The per-file streaming loop of `send` (`main.rs` lines 74-89): for
each file in order, `File::open(file)?` aborts the session on failure,
then the copy loop runs; the concatenated stream bytes follow the
manifest. -/
def streamFiles : List SrcFile → Except Unit (List Nat)
  | [] => .ok []
  | f :: rest =>
    if f.openOk then
      match streamFiles rest with
      | .ok tail => .ok (copyLoop f.reads ++ tail)
      | .error e => .error e
    else .error ()

/-- The whole sending session of `send`: build and write the manifest
buffer, then stream every file body in order. -/
def sendSession (files : List SrcFile) : Except Unit (List Nat) :=
  match sendManifest (files.map (fun f => (f.meta, f.path))) with
  | .ok manifest =>
    match streamFiles files with
    | .ok body => .ok (manifest ++ body)
    | .error e => .error e
  | .error e => .error e

/-- A socket address as carried by the discovery datagram: the family,
the raw IP bytes (4 for v4, 16 for v6 — `octets()` in the source) and
the port. -/
inductive SockAddr
  | v4 (ip : List Nat) (port : Nat)
  | v6 (ip : List Nat) (port : Nat)
deriving DecidableEq

/-- Well-formedness matching the Rust types: `octets()` returns exactly
4 (v4) or 16 (v6) bytes and a port is a u16. -/
def WFAddr : SockAddr → Prop
  | .v4 ip port => ip.length = 4 ∧ port < 2 ^ 16
  | .v6 ip port => ip.length = 16 ∧ port < 2 ^ 16

/-- Big-endian port bytes, mirroring `u16::to_be_bytes`. -/
def toBE2 (port : Nat) : List Nat := [port / 256 % 256, port % 256]

/-- Big-endian port decoding, mirroring `u16::from_be_bytes`. -/
def fromBE2 (l : List Nat) : Nat := 256 * l.getD 0 0 + l.getD 1 0

/-- The function `serialize_socket_addr` (`main.rs` lines 243-258): a 20-byte buffer
of zeroes with byte 0 the family tag (4 or 6), the IP `octets()` copied
at bytes 1.., then the port big-endian; the rest stays zero.  Written
here as the resulting byte list (the `octets()` slice is exactly 4 or
16 bytes long, so for well-formed addresses the two forms coincide). -/
def serialize_socket_addr : SockAddr → List Nat
  | .v4 ip port => 4 :: (ip ++ toBE2 port ++ List.replicate 13 0)
  | .v6 ip port => 6 :: (ip ++ toBE2 port ++ [0])

/-- The function `deserialize_socket_addr` (`main.rs` lines 260-280): dispatch on
byte 0; tag 4 reads bytes 1..5 as the IPv4 address and 5..7 as the
port, tag 6 reads bytes 1..17 and 17..19, any other tag is an error
(`"invalid socket addr version"`). -/
def deserialize_socket_addr (buffer : List Nat) : Except Unit SockAddr :=
  if buffer.getD 0 0 = 4 then
    .ok (.v4 ((buffer.drop 1).take 4) (fromBE2 ((buffer.drop 5).take 2)))
  else if buffer.getD 0 0 = 6 then
    .ok (.v6 ((buffer.drop 1).take 16) (fromBE2 ((buffer.drop 17).take 2)))
  else .error ()

/-- Concrete sender input for evaluating the copy loop: a file whose
metadata reports 6 bytes but whose second read fails with an I/O
error after a first 3-byte chunk. -/
def fileA : SrcFile :=
  { path := [97], meta := 6, openOk := true, reads := [.ok [1, 2, 3], .error ()] }

/-- Concrete sender input: a well-behaved 1-byte file following `fileA`. -/
def fileB : SrcFile :=
  { path := [98], meta := 1, openOk := true, reads := [.ok [9]] }

/-! ## Helper lemmas -/

theorem drop_take_eq_of_take_eq {α : Type} {b1 b2 : List α} (k m t : Nat)
    (h : b1.take k = b2.take k) (hmt : m + t ≤ k) :
    (b1.drop m).take t = (b2.drop m).take t := by
  rw [List.take_drop, List.take_drop]
  have h1 : b1.take (m + t) = b2.take (m + t) := by
    have h2 := congrArg (List.take (m + t)) h
    rwa [List.take_take, List.take_take, Nat.min_eq_left hmt] at h2
  rw [h1]

theorem getD_eq_of_take_eq {b1 b2 : List Nat} (k i : Nat)
    (h : b1.take k = b2.take k) (hik : i < k) : b1.getD i 0 = b2.getD i 0 := by
  rw [List.getD_eq_getElem?_getD, List.getD_eq_getElem?_getD,
    ← List.getElem?_take_of_lt (l := b1) hik, ← List.getElem?_take_of_lt (l := b2) hik, h]

theorem shrinkCommon_nil (name : List Nat) : shrinkCommon [] name = [] := by
  simp [shrinkCommon]

theorem runningCommon_keep (names : List (List Nat)) :
    runningCommon .keep names = some [] := by
  show names.foldl stepCommon (some []) = some []
  induction names with
  | nil => rfl
  | cons n ns ih =>
    rw [List.foldl_cons]
    show ns.foldl stepCommon (some (shrinkCommon [] n)) = some []
    rw [shrinkCommon_nil]
    exact ih

theorem sendRecords_ok (files : List (Nat × List Nat))
    (h : ∀ f ∈ files, f.2.length < 2 ^ 32) :
    sendRecords files =
      .ok ((files.map (fun f => toLE 8 f.1 ++ toLE 4 f.2.length ++ normalizeName f.2)).flatten) := by
  induction files with
  | nil => rfl
  | cons f rest ih =>
    obtain ⟨len, name⟩ := f
    have hname : name.length < 2 ^ 32 := h (len, name) (List.mem_cons_self _ _)
    have hrest := ih (fun g hg => h g (List.mem_cons_of_mem _ hg))
    simp only [sendRecords, if_pos hname, hrest, List.map_cons, List.flatten_cons,
      List.append_assoc]

theorem normalizeName_length (name : List Nat) :
    (normalizeName name).length = name.length :=
  List.length_map name _

theorem records_flatten_length (files : List (Nat × List Nat)) :
    ((files.map (fun f => toLE 8 f.1 ++ toLE 4 f.2.length ++ normalizeName f.2)).flatten).length
      = (files.map (fun f => 12 + f.2.length)).sum := by
  induction files with
  | nil => rfl
  | cons f rest ih =>
    obtain ⟨len, name⟩ := f
    simp only [List.map_cons, List.flatten_cons, List.length_append, toLE_length,
      normalizeName_length, List.sum_cons, ih]

theorem recvFile_of_le : ∀ (file_len : Nat) (stream : List Nat),
    file_len ≤ stream.length →
    recvFile file_len stream = .ok (stream.take file_len, stream.drop file_len) := by
  intro n
  induction n using Nat.strong_induction_on with
  | _ n ih =>
    intro stream hle
    rw [recvFile]
    by_cases h0 : n = 0
    · subst h0
      simp
    · rw [dif_neg h0]
      have hm : ¬ min (min n CHUNK_SIZE) stream.length = 0 := by
        simp only [CHUNK_SIZE]
        omega
      rw [dif_neg hm]
      have hrec := ih (n - min (min n CHUNK_SIZE) stream.length) (by omega)
        (stream.drop (min (min n CHUNK_SIZE) stream.length))
        (by rw [List.length_drop]; omega)
      have h1 : stream.take (min (min n CHUNK_SIZE) stream.length)
          ++ (stream.drop (min (min n CHUNK_SIZE) stream.length)).take
            (n - min (min n CHUNK_SIZE) stream.length) = stream.take n := by
        rw [← List.take_add]
        congr 1
        omega
      have h2 : (stream.drop (min (min n CHUNK_SIZE) stream.length)).drop
          (n - min (min n CHUNK_SIZE) stream.length) = stream.drop n := by
        rw [List.drop_drop]
        congr 1
        omega
      simp only [hrec]
      rw [h1, h2]

theorem recvFile_truncated : ∀ (file_len : Nat) (stream : List Nat),
    stream.length < file_len → recvFile file_len stream = .error .truncated := by
  intro n
  induction n using Nat.strong_induction_on with
  | _ n ih =>
    intro stream hlt
    rw [recvFile]
    rw [dif_neg (show ¬ n = 0 by omega)]
    by_cases hm : min (min n CHUNK_SIZE) stream.length = 0
    · rw [dif_pos hm]
    · rw [dif_neg hm]
      have hrec := ih (n - min (min n CHUNK_SIZE) stream.length) (by omega)
        (stream.drop (min (min n CHUNK_SIZE) stream.length))
        (by rw [List.length_drop]; omega)
      simp only [hrec]

theorem recvFiles_ok : ∀ (entries : List (Nat × List Nat)) (stream : List Nat)
    (outs : List (List Nat)), recvFiles entries stream = .ok outs →
    outs.map List.length = entries.map Prod.fst := by
  intro entries
  induction entries with
  | nil =>
    intro stream outs h
    simp only [recvFiles] at h
    injection h with h2
    subst h2
    rfl
  | cons e rest ih =>
    obtain ⟨fl, name⟩ := e
    intro stream outs h
    simp only [recvFiles] at h
    by_cases hle : fl ≤ stream.length
    · simp only [recvFile_of_le fl stream hle] at h
      cases hr : recvFiles rest (stream.drop fl) with
      | error e2 =>
        rw [hr] at h
        simp at h
      | ok ws =>
        rw [hr] at h
        injection h with h2
        subst h2
        simp only [List.map_cons]
        rw [ih (stream.drop fl) ws hr, List.length_take, Nat.min_eq_left hle]
    · push_neg at hle
      rw [recvFile_truncated fl stream hle] at h
      simp at h

theorem recvFiles_truncated : ∀ (entries : List (Nat × List Nat)) (stream : List Nat),
    stream.length < (entries.map Prod.fst).sum →
    recvFiles entries stream = .error .truncated := by
  intro entries
  induction entries with
  | nil =>
    intro stream h
    simp at h
  | cons e rest ih =>
    obtain ⟨fl, name⟩ := e
    intro stream h
    simp only [recvFiles]
    simp only [List.map_cons, List.sum_cons] at h
    by_cases hle : fl ≤ stream.length
    · simp only [recvFile_of_le fl stream hle]
      rw [ih (stream.drop fl) (by rw [List.length_drop]; omega)]
    · push_neg at hle
      rw [recvFile_truncated fl stream hle]

theorem parseRecords_nil : parseRecords [] = .ok [] := by
  rw [parseRecords]
  simp

theorem rawRecords_length (files : List (Nat × List Nat)) :
    (rawRecords files).length = (files.map (fun f => 12 + f.2.length)).sum := by
  induction files with
  | nil => rfl
  | cons f rest ih =>
    obtain ⟨len, name⟩ := f
    simp only [rawRecords, List.length_append, toLE_length, List.map_cons, List.sum_cons, ih]

theorem rawRecords_eq_flatten (files : List (Nat × List Nat))
    (h92 : ∀ f ∈ files, ¬ 92 ∈ f.2) :
    (files.map (fun f => toLE 8 f.1 ++ toLE 4 f.2.length ++ normalizeName f.2)).flatten
      = rawRecords files := by
  induction files with
  | nil => rfl
  | cons f rest ih =>
    obtain ⟨len, name⟩ := f
    have hname := h92 (len, name) (List.mem_cons_self _ _)
    have hrest := ih (fun g hg => h92 g (List.mem_cons_of_mem _ hg))
    simp only [List.map_cons, List.flatten_cons, rawRecords, hrest,
      normalizeName_of_no_backslash name hname]

theorem parseRecords_rawRecords_append (files : List (Nat × List Nat)) (tail : List Nat)
    (h : ∀ f ∈ files, f.1 < 2 ^ 64 ∧ f.2.length < 2 ^ 32 ∧ utf8Valid f.2 = true) :
    parseRecords (rawRecords files ++ tail) =
      match parseRecords tail with
      | .ok more => .ok (files ++ more)
      | .error e => .error e := by
  induction files with
  | nil =>
    cases hp : parseRecords tail with
    | ok more => simp [rawRecords, hp]
    | error e => simp [rawRecords, hp]
  | cons f rest ih =>
    obtain ⟨len, name⟩ := f
    obtain ⟨hl, hn, hu⟩ := h (len, name) (List.mem_cons_self _ _)
    have hrest := ih (fun g hg => h g (List.mem_cons_of_mem _ hg))
    rw [show rawRecords ((len, name) :: rest) ++ tail =
        toLE 8 len ++ (toLE 4 name.length ++ (name ++ (rawRecords rest ++ tail))) from by
      simp [rawRecords, List.append_assoc]]
    set body := toLE 8 len ++ (toLE 4 name.length ++ (name ++ (rawRecords rest ++ tail)))
      with hbody
    have h8 : (toLE 8 len).length = 8 := toLE_length 8 len
    have h4 : (toLE 4 name.length).length = 4 := toLE_length 4 name.length
    have hb8 : body.take 8 = toLE 8 len := by
      rw [hbody]
      exact take_append_len _ _ 8 h8
    have hd8 : body.drop 8 = toLE 4 name.length ++ (name ++ (rawRecords rest ++ tail)) := by
      rw [hbody]
      exact drop_append_len _ _ 8 h8
    have hb4 : (body.drop 8).take 4 = toLE 4 name.length := by
      rw [hd8]
      exact take_append_len _ _ 4 h4
    have hd4 : (body.drop 8).drop 4 = name ++ (rawRecords rest ++ tail) := by
      rw [hd8]
      exact drop_append_len _ _ 4 h4
    have hfle4 : fromLE ((body.drop 8).take 4) = name.length := by
      rw [hb4]
      exact fromLE_toLE 4 name.length (by rw [show (256 : Nat) ^ 4 = 2 ^ 32 by norm_num]; exact hn)
    have hfle8 : fromLE (body.take 8) = len := by
      rw [hb8]
      exact fromLE_toLE 8 len (by rw [show (256 : Nat) ^ 8 = 2 ^ 64 by norm_num]; exact hl)
    have hbn : ((body.drop 8).drop 4).take (fromLE ((body.drop 8).take 4)) = name := by
      rw [hd4, hfle4]
      exact take_append_len _ _ _ rfl
    have hdn : ((body.drop 8).drop 4).drop (fromLE ((body.drop 8).take 4))
        = rawRecords rest ++ tail := by
      rw [hd4, hfle4]
      exact drop_append_len _ _ _ rfl
    have hlen8 : 8 ≤ body.length := by
      rw [hbody, List.length_append, h8]
      omega
    have hc1 : ¬ body = [] := by
      intro hh
      rw [hh] at hlen8
      simp at hlen8
    have hc2 : ¬ body.length < 8 := by omega
    have hc3 : ¬ (body.drop 8).length < 4 := by
      rw [hd8, List.length_append, h4]
      omega
    have hc4 : ¬ ((body.drop 8).drop 4).length < fromLE ((body.drop 8).take 4) := by
      rw [hd4, hfle4, List.length_append]
      omega
    rw [parseRecords, dif_neg hc1, dif_neg hc2, dif_neg hc3, dif_neg hc4, hbn, if_pos hu,
      hdn, hfle8, hrest]
    cases hp : parseRecords tail with
    | ok more => simp [hp]
    | error e => simp [hp]

theorem parseRecords_overrun (tail : List Nat) (hne : tail ≠ [])
    (hshort : tail.length < 12 + fromLE ((tail.drop 8).take 4)) :
    parseRecords tail = .error .panicked := by
  rw [parseRecords, dif_neg hne]
  by_cases h8 : tail.length < 8
  · rw [dif_pos h8]
  · rw [dif_neg h8]
    by_cases h4 : (tail.drop 8).length < 4
    · rw [dif_pos h4]
    · rw [dif_neg h4]
      rw [dif_pos (by
        rw [List.length_drop] at h4 ⊢
        rw [List.length_drop]
        omega)]

theorem parseRecords_trichotomy (body : List Nat) (hb : ∀ b ∈ body, b < 256) :
    (∃ es, parseRecords body = .ok es ∧ rawRecords es = body ∧
      ∀ e ∈ es, utf8Valid e.2 = true) ∨
    parseRecords body = .error .invalidUtf8 ∨
    parseRecords body = .error .panicked := by
  suffices hgen : ∀ (n : Nat) (body : List Nat), body.length ≤ n → (∀ b ∈ body, b < 256) →
      (∃ es, parseRecords body = .ok es ∧ rawRecords es = body ∧
        ∀ e ∈ es, utf8Valid e.2 = true) ∨
      parseRecords body = .error .invalidUtf8 ∨
      parseRecords body = .error .panicked by
    exact hgen body.length body le_rfl hb
  intro n
  induction n with
  | zero =>
    intro body hlen hb2
    have hnil : body = [] := List.eq_nil_of_length_eq_zero (by omega)
    subst hnil
    exact Or.inl ⟨[], parseRecords_nil, rfl, by simp⟩
  | succ n ih =>
    intro body hlen hb2
    by_cases h0 : body = []
    · subst h0
      exact Or.inl ⟨[], parseRecords_nil, rfl, by simp⟩
    by_cases h8 : body.length < 8
    · exact Or.inr (Or.inr (by rw [parseRecords, dif_neg h0, dif_pos h8]))
    by_cases h4 : (body.drop 8).length < 4
    · exact Or.inr (Or.inr (by rw [parseRecords, dif_neg h0, dif_neg h8, dif_pos h4]))
    by_cases hnl : ((body.drop 8).drop 4).length < fromLE ((body.drop 8).take 4)
    · exact Or.inr (Or.inr (by
        rw [parseRecords, dif_neg h0, dif_neg h8, dif_neg h4, dif_pos hnl]))
    by_cases hu : utf8Valid (((body.drop 8).drop 4).take (fromLE ((body.drop 8).take 4))) = true
    · have hrest_len :
          (((body.drop 8).drop 4).drop (fromLE ((body.drop 8).take 4))).length ≤ n := by
        simp only [List.length_drop] at h4 ⊢
        omega
      have hrest_bytes :
          ∀ b ∈ ((body.drop 8).drop 4).drop (fromLE ((body.drop 8).take 4)), b < 256 :=
        fun b hbm =>
          hb2 b (List.mem_of_mem_drop (List.mem_of_mem_drop (List.mem_of_mem_drop hbm)))
      rcases ih _ hrest_len hrest_bytes with ⟨es, hok, hraw, hval⟩ | herr | hpan
      · refine Or.inl ⟨(fromLE (body.take 8),
          ((body.drop 8).drop 4).take (fromLE ((body.drop 8).take 4))) :: es, ?_, ?_, ?_⟩
        · rw [parseRecords, dif_neg h0, dif_neg h8, dif_neg h4, dif_neg hnl, if_pos hu, hok]
        · have hname_len : (((body.drop 8).drop 4).take (fromLE ((body.drop 8).take 4))).length
              = fromLE ((body.drop 8).take 4) := by
            rw [List.length_take]
            simp only [List.length_drop] at hnl ⊢
            omega
          have hb8 : toLE 8 (fromLE (body.take 8)) = body.take 8 := by
            have hby := toLE_fromLE (body.take 8)
              (fun b hbm => hb2 b (List.mem_of_mem_take hbm))
            rwa [show (body.take 8).length = 8 by rw [List.length_take]; omega] at hby
          have hb4 : toLE 4 (fromLE ((body.drop 8).take 4)) = (body.drop 8).take 4 := by
            have hby := toLE_fromLE ((body.drop 8).take 4)
              (fun b hbm => hb2 b (List.mem_of_mem_drop (List.mem_of_mem_take hbm)))
            rwa [show ((body.drop 8).take 4).length = 4 by
              rw [List.length_take]
              simp only [List.length_drop] at h4 ⊢
              omega] at hby
          show toLE 8 (fromLE (body.take 8))
              ++ toLE 4 (((body.drop 8).drop 4).take (fromLE ((body.drop 8).take 4))).length
              ++ ((body.drop 8).drop 4).take (fromLE ((body.drop 8).take 4))
              ++ rawRecords es = body
          rw [hname_len, hb8, hb4, hraw]
          rw [List.append_assoc, List.append_assoc, List.take_append_drop,
            List.take_append_drop, List.take_append_drop]
        · intro e he
          rcases List.mem_cons.mp he with rfl | hmem
          · exact hu
          · exact hval e hmem
      · exact Or.inr (Or.inl (by
          rw [parseRecords, dif_neg h0, dif_neg h8, dif_neg h4, dif_neg hnl, if_pos hu, herr]))
      · exact Or.inr (Or.inr (by
          rw [parseRecords, dif_neg h0, dif_neg h8, dif_neg h4, dif_neg hnl, if_pos hu, hpan]))
    · exact Or.inr (Or.inl (by
        rw [parseRecords, dif_neg h0, dif_neg h8, dif_neg h4, dif_neg hnl, if_neg hu]))

/-! ## Claims -/

/-- C8: when the caller did not request stripping (`Keep` mode), the
running common value starts as the empty slice and only ever shrinks,
so the stripped length is always zero and every file is materialized
at exactly its transmitted relative path. -/
theorem keep_mode_zero_strip (names : List (List Nat)) :
    commonPrefixLen .keep names = 0 ∧
    ∀ name : List Nat, name.drop (commonPrefixLen .keep names) = name := by
  have h : commonPrefixLen .keep names = 0 := by
    simp [commonPrefixLen, runningCommon_keep, rpositionSep]
  exact ⟨h, fun name => by rw [h, List.drop_zero]⟩

/-- Witness for C8 at a concrete manifest name list and path. -/
theorem keep_mode_zero_strip_witness :
    commonPrefixLen .keep [[97, 47, 98]] = 0 ∧
    ([99, 47, 100] : List Nat).drop (commonPrefixLen .keep [[97, 47, 98]]) = [99, 47, 100] :=
  ⟨(keep_mode_zero_strip [[97, 47, 98]]).1,
   (keep_mode_zero_strip [[97, 47, 98]]).2 [99, 47, 100]⟩

/-- C9: serializing an IPv4 or IPv6 socket address into the 20-byte
discovery envelope and deserializing it yields back the same family,
IP bytes and port; an envelope whose tag byte is neither 4 nor 6 fails
with an error. -/
theorem socket_addr_roundtrip :
    (∀ a : SockAddr, WFAddr a →
      deserialize_socket_addr (serialize_socket_addr a) = .ok a) ∧
    (∀ buffer : List Nat, buffer.getD 0 0 ≠ 4 → buffer.getD 0 0 ≠ 6 →
      deserialize_socket_addr buffer = .error ()) := by
  constructor
  · intro a hwf
    cases a with
    | v4 ip port =>
      obtain ⟨hlen, hport⟩ := hwf
      have hip : ((ip ++ toBE2 port ++ List.replicate 13 0).take 4) = ip := by
        rw [List.append_assoc]
        exact take_append_len ip _ 4 hlen
      have hdrop : ((ip ++ toBE2 port ++ List.replicate 13 0).drop 4)
          = toBE2 port ++ List.replicate 13 0 := by
        rw [List.append_assoc]
        exact drop_append_len ip _ 4 hlen
      have hp2 : ((toBE2 port ++ List.replicate 13 0).take 2) = toBE2 port :=
        take_append_len _ _ 2 rfl
      have hfb : fromBE2 (toBE2 port) = port := by
        simp only [fromBE2, toBE2, List.getD_cons_zero, List.getD_cons_succ]
        omega
      show deserialize_socket_addr (4 :: (ip ++ toBE2 port ++ List.replicate 13 0)) = _
      unfold deserialize_socket_addr
      rw [List.getD_cons_zero, if_pos rfl]
      simp only [List.drop_succ_cons, List.drop_zero]
      rw [hip, hdrop, hp2, hfb]
    | v6 ip port =>
      obtain ⟨hlen, hport⟩ := hwf
      have hip : ((ip ++ toBE2 port ++ [0]).take 16) = ip := by
        rw [List.append_assoc]
        exact take_append_len ip _ 16 hlen
      have hdrop : ((ip ++ toBE2 port ++ [0]).drop 16) = toBE2 port ++ [0] := by
        rw [List.append_assoc]
        exact drop_append_len ip _ 16 hlen
      have hp2 : ((toBE2 port ++ [0]).take 2) = toBE2 port :=
        take_append_len _ _ 2 rfl
      have hfb : fromBE2 (toBE2 port) = port := by
        simp only [fromBE2, toBE2, List.getD_cons_zero, List.getD_cons_succ]
        omega
      show deserialize_socket_addr (6 :: (ip ++ toBE2 port ++ [0])) = _
      unfold deserialize_socket_addr
      rw [List.getD_cons_zero, if_neg (by decide), if_pos rfl]
      simp only [List.drop_succ_cons, List.drop_zero]
      rw [hip, hdrop, hp2, hfb]
  · intro buffer h4 h6
    rw [List.getD_eq_getElem?_getD] at h4 h6
    simp [deserialize_socket_addr, h4, h6]

/-- Witness for C9 at a concrete IPv4 address and a concrete envelope
with tag byte 9. -/
theorem socket_addr_roundtrip_witness :
    deserialize_socket_addr (serialize_socket_addr (.v4 [192, 168, 0, 1] 8370))
      = .ok (.v4 [192, 168, 0, 1] 8370) ∧
    deserialize_socket_addr (List.replicate 20 9) = .error () :=
  ⟨socket_addr_roundtrip.1 _ ⟨rfl, by decide⟩,
   socket_addr_roundtrip.2 _ (by decide) (by decide)⟩

/-- C10: deserializing a 20-byte envelope with tag 4 (resp. 6) succeeds
and depends only on the first 7 (resp. 19) bytes; the trailing padding
is never validated, so envelopes differing only in padding decode to
the same socket address. -/
theorem socket_addr_padding_ignored (b1 b2 : List Nat)
    (hl1 : b1.length = 20) (hl2 : b2.length = 20) :
    (b1.getD 0 0 = 4 → b1.take 7 = b2.take 7 →
      deserialize_socket_addr b1 = deserialize_socket_addr b2 ∧
      ∃ a, deserialize_socket_addr b1 = .ok a) ∧
    (b1.getD 0 0 = 6 → b1.take 19 = b2.take 19 →
      deserialize_socket_addr b1 = deserialize_socket_addr b2 ∧
      ∃ a, deserialize_socket_addr b1 = .ok a) := by
  constructor
  · intro ht4 hts
    have ht4b : b2.getD 0 0 = 4 := by
      rw [← getD_eq_of_take_eq 7 0 hts (by omega)]
      exact ht4
    have hip := drop_take_eq_of_take_eq 7 1 4 hts (by omega)
    have hpo := drop_take_eq_of_take_eq 7 5 2 hts (by omega)
    refine ⟨?_, ⟨.v4 ((b1.drop 1).take 4) (fromBE2 ((b1.drop 5).take 2)), ?_⟩⟩
    · unfold deserialize_socket_addr
      rw [if_pos ht4, if_pos ht4b, hip, hpo]
    · unfold deserialize_socket_addr
      rw [if_pos ht4]
  · intro ht6 hts
    have ht6b : b2.getD 0 0 = 6 := by
      rw [← getD_eq_of_take_eq 19 0 hts (by omega)]
      exact ht6
    have hip := drop_take_eq_of_take_eq 19 1 16 hts (by omega)
    have hpo := drop_take_eq_of_take_eq 19 17 2 hts (by omega)
    refine ⟨?_, ⟨.v6 ((b1.drop 1).take 16) (fromBE2 ((b1.drop 17).take 2)), ?_⟩⟩
    · unfold deserialize_socket_addr
      rw [if_neg (show ¬ b1.getD 0 0 = 4 by omega), if_pos ht6,
        if_neg (show ¬ b2.getD 0 0 = 4 by omega), if_pos ht6b, hip, hpo]
    · unfold deserialize_socket_addr
      rw [if_neg (show ¬ b1.getD 0 0 = 4 by omega), if_pos ht6]

/-- Witness for C10: two tag-4 envelopes agreeing on their first 7
bytes but with different padding decode to the same address. -/
theorem socket_addr_padding_ignored_witness :
    deserialize_socket_addr ([4, 192, 168, 0, 1, 32, 178] ++ List.replicate 13 0)
      = deserialize_socket_addr ([4, 192, 168, 0, 1, 32, 178] ++ List.replicate 13 7) ∧
    ∃ a, deserialize_socket_addr ([4, 192, 168, 0, 1, 32, 178] ++ List.replicate 13 0)
      = .ok a :=
  (socket_addr_padding_ignored _ _ (by decide) (by decide)).1 (by decide) (by decide)

/-- C4: the receiver reads the first 4 bytes and rejects the transfer
before parsing any record when the first 3 bytes differ from the magic
`"sf-"` (bytes 115, 102, 45) or the fourth byte differs from the
supported version 3, reporting magic mismatch and version mismatch as
distinct error causes. -/
theorem header_check_rejects (stream : List Nat) (hlen : 4 ≤ stream.length) :
    (stream.take 3 ≠ [115, 102, 45] → recvDecode stream = .error .badHeader) ∧
    (stream.take 3 = [115, 102, 45] → stream.getD 3 0 ≠ VERSION →
      recvDecode stream = .error .incompatibleVersion) := by
  constructor
  · intro hm
    rw [recvDecode, if_neg (by omega), if_pos hm]
  · intro hm hv
    rw [recvDecode, if_neg (by omega), if_neg (by simp [hm]), if_pos hv]

/-- Witness for C4: a stream with a wrong magic byte is rejected as a
bad header; one with magic intact but version byte 2 is rejected as an
incompatible version. -/
theorem header_check_rejects_witness :
    recvDecode [120, 102, 45, 3] = .error .badHeader ∧
    recvDecode [115, 102, 45, 2] = .error .incompatibleVersion :=
  ⟨(header_check_rejects [120, 102, 45, 3] (by decide)).1 (by decide),
   (header_check_rejects [115, 102, 45, 2] (by decide)).2 (by decide) (by decide)⟩

theorem sendManifest_eq (files : List (Nat × List Nat))
    (hnames : ∀ f ∈ files, f.2.length < 2 ^ 32)
    (htotal : 8 + ((files.map (fun f => 12 + f.2.length)).sum) < 2 ^ 32) :
    sendManifest files =
      .ok ([115, 102, 45, 3] ++
        toLE 4 (8 + (files.map (fun f => 12 + f.2.length)).sum) ++
        (files.map (fun f => toLE 8 f.1 ++ toLE 4 f.2.length ++ normalizeName f.2)).flatten) := by
  have hrec := sendRecords_ok files hnames
  have hlen := records_flatten_length files
  set recs := (files.map (fun f => toLE 8 f.1 ++ toLE 4 f.2.length ++ normalizeName f.2)).flatten
    with hrecs
  have hbuf : ([115, 102, 45, VERSION, 0, 0, 0, 0] ++ recs).length
      = 8 + (files.map (fun f => 12 + f.2.length)).sum := by
    rw [List.length_append, hlen]
    rfl
  simp only [sendManifest, hrec]
  rw [if_pos (by rw [hbuf]; exact htotal)]
  rw [hbuf]
  rw [show ([115, 102, 45, VERSION, 0, 0, 0, 0] ++ recs).take 4 = [115, 102, 45, 3] by
    simp [VERSION]]
  rw [show ([115, 102, 45, VERSION, 0, 0, 0, 0] ++ recs).drop 8 = recs by simp]

/-- C3: the manifest buffer `send` writes before any file data is the
3 magic bytes `"sf-"`, the version byte 3, the u32 LE total manifest
length (counting the 8-byte header), then per file in order a u64 LE
file length, a u32 LE name byte length, and the name bytes with every
backslash replaced by a forward slash; no file data is in the buffer. -/
theorem sendManifest_layout (files : List (Nat × List Nat))
    (hnames : ∀ f ∈ files, f.2.length < 2 ^ 32)
    (htotal : 8 + ((files.map (fun f => 12 + f.2.length)).sum) < 2 ^ 32) :
    sendManifest files =
      .ok ([115, 102, 45, 3] ++
        toLE 4 (8 + (files.map (fun f => 12 + f.2.length)).sum) ++
        (files.map (fun f => toLE 8 f.1 ++ toLE 4 f.2.length ++ normalizeName f.2)).flatten) :=
  sendManifest_eq files hnames htotal

/-- Witness for C3 on one file of length 5 named `"a\b"` (bytes
97, 92, 98): total length 23, backslash transmitted as `/` (47). -/
theorem sendManifest_layout_witness :
    sendManifest [((5 : Nat), ([97, 92, 98] : List Nat))] =
      .ok [115, 102, 45, 3, 23, 0, 0, 0, 5, 0, 0, 0, 0, 0, 0, 0, 3, 0, 0, 0, 97, 47, 98] := by
  rw [sendManifest_layout [(5, [97, 92, 98])] (by decide) (by decide)]
  rfl

/-- C1: encoding a manifest with `send` and decoding it with `recv`
reproduces the same ordered sequence of (file length, relative path)
pairs, for any number of entries, whenever the entries are well-formed
file entries (u64 lengths, u32-sized UTF-8 names with forward-slash
separators, total manifest length in u32 range). -/
theorem manifest_roundtrip (files : List (Nat × List Nat))
    (h : ∀ f ∈ files, f.1 < 2 ^ 64 ∧ f.2.length < 2 ^ 32 ∧ utf8Valid f.2 = true ∧ ¬ 92 ∈ f.2)
    (htotal : 8 + (files.map (fun f => 12 + f.2.length)).sum < 2 ^ 32) :
    ∃ buf, sendManifest files = .ok buf ∧ recvDecode buf = .ok files := by
  have hnames : ∀ f ∈ files, f.2.length < 2 ^ 32 := fun f hf => (h f hf).2.1
  have h92 : ∀ f ∈ files, ¬ 92 ∈ f.2 := fun f hf => (h f hf).2.2.2
  have hparse : ∀ f ∈ files, f.1 < 2 ^ 64 ∧ f.2.length < 2 ^ 32 ∧ utf8Valid f.2 = true :=
    fun f hf => ⟨(h f hf).1, (h f hf).2.1, (h f hf).2.2.1⟩
  refine ⟨_, sendManifest_eq files hnames htotal, ?_⟩
  rw [rawRecords_eq_flatten files h92]
  set total := 8 + (files.map (fun f => 12 + f.2.length)).sum with htot
  set recs := rawRecords files with hrecs
  set buf := [115, 102, 45, 3] ++ toLE 4 total ++ recs with hbuf
  have hrlen : recs.length = total - 8 := by
    rw [hrecs, rawRecords_length]
    omega
  have htl4 : (toLE 4 total).length = 4 := toLE_length 4 total
  have hblen : buf.length = 8 + recs.length := by
    rw [hbuf, List.length_append, List.length_append, htl4]
    rfl
  have hd4 : buf.drop 4 = toLE 4 total ++ recs := by
    rw [hbuf]
    rfl
  have ht4 : (buf.drop 4).take 4 = toLE 4 total := by
    rw [hd4]
    exact take_append_len _ _ 4 htl4
  have hfle : fromLE ((buf.drop 4).take 4) = total := by
    rw [ht4]
    exact fromLE_toLE 4 total (by rw [show (256 : Nat) ^ 4 = 2 ^ 32 by norm_num]; exact htotal)
  have hd8 : buf.drop 8 = recs := by
    have hsplit : buf.drop 8 = (buf.drop 4).drop 4 := by rw [List.drop_drop]
    rw [hsplit, hd4]
    exact drop_append_len _ _ 4 htl4
  have c1 : ¬ buf.length < 4 := by omega
  have take3 : buf.take 3 = [115, 102, 45] := by
    rw [hbuf]
    rfl
  have ver : buf.getD 3 0 = VERSION := by
    rw [hbuf]
    rfl
  have c4 : ¬ (buf.drop 4).length < 4 := by
    rw [hd4, List.length_append, htl4]
    omega
  have c5 : ¬ fromLE ((buf.drop 4).take 4) < 8 := by
    rw [hfle]
    omega
  have c6 : ¬ (buf.drop 8).length < fromLE ((buf.drop 4).take 4) - 8 := by
    rw [hd8, hfle]
    omega
  have htk : (buf.drop 8).take (fromLE ((buf.drop 4).take 4) - 8) = recs := by
    rw [hd8, hfle, ← hrlen]
    exact List.take_length recs
  rw [recvDecode, if_neg c1, if_neg (not_not_intro take3), if_neg (not_not_intro ver),
    if_neg c4, if_neg c5, if_neg c6, htk, hrecs,
    ← List.append_nil (rawRecords files),
    parseRecords_rawRecords_append files [] hparse, parseRecords_nil]
  simp

/-- Witness for C1: two files (a 2-byte `"a"` and an empty
`"b/c"` — 0 bytes) encode and decode back to the same entries. -/
theorem manifest_roundtrip_witness :
    ∃ buf, sendManifest [((2 : Nat), ([97] : List Nat)), (0, [98, 47, 99])] = .ok buf ∧
      recvDecode buf = .ok [(2, [97]), (0, [98, 47, 99])] :=
  manifest_roundtrip [(2, [97]), (0, [98, 47, 99])] (by decide) (by decide)

/-- C6: if the stream runs out of bytes before the declared file
lengths have been fully consumed, the receiver's file loop fails with
the truncated-transfer error — fatal to the whole session — and a
successful session always delivers every file at exactly its declared
length, never a silently short file. -/
theorem truncated_transfer :
    (∀ (entries : List (Nat × List Nat)) (stream : List Nat),
      stream.length < (entries.map Prod.fst).sum →
      recvFiles entries stream = .error .truncated) ∧
    (∀ (entries : List (Nat × List Nat)) (stream : List Nat) (outs : List (List Nat)),
      recvFiles entries stream = .ok outs →
      outs.map List.length = entries.map Prod.fst) :=
  ⟨recvFiles_truncated, recvFiles_ok⟩

/-- Witness for C6: a 5-byte file on a 3-byte stream is a truncated
transfer; a completed 2-byte file has exactly its declared length. -/
theorem truncated_transfer_witness :
    recvFiles [(5, [97])] [1, 2, 3] = .error .truncated ∧
    ([[1, 2]] : List (List Nat)).map List.length = [((2 : Nat), ([97] : List Nat))].map Prod.fst :=
  ⟨truncated_transfer.1 [(5, [97])] [1, 2, 3] (by decide),
   truncated_transfer.2 [(2, [97])] [1, 2, 3] [[1, 2]]
     (by simp only [recvFiles, recvFile_of_le 2 [1, 2, 3] (by decide)]; rfl)⟩

/-- C5 counterexample: a manifest declaring total length 9 whose
1-byte body `[0]` makes the first record's 8-byte length slice run
past the end of the body: the outcome is the out-of-bounds slice panic
(a program abort), not a returned malformed-manifest error, so the
claim's "fails with a malformed-manifest error (rather than any other
outcome)" is false at this input. -/
theorem record_overrun_panics_cex :
    recvDecode ([115, 102, 45, 3] ++ toLE 4 9 ++ [0]) = .error .panicked ∧
    RecvErr.panicked ≠ RecvErr.invalidUtf8 := by
  constructor
  · rw [recvDecode]
    norm_num [toLE, fromLE, VERSION]
    rw [parseRecords]
    simp
  · decide

/-- C5 (amended): the receiver parses records sequentially within
exactly the declared total length minus the 8-byte header; a path that
is not valid UTF-8 is a fatal per-transfer error, never a skipped
entry (every parse of a body ends in the full record list, the UTF-8
error, or a panic); but a record that would read past the end of the
body causes an out-of-bounds slice panic (program abort) rather than a
returned malformed-manifest error. -/
theorem manifest_parse_amended :
    (∀ stream : List Nat,
      4 ≤ stream.length → stream.take 3 = [115, 102, 45] → stream.getD 3 0 = VERSION →
      4 ≤ (stream.drop 4).length → 8 ≤ fromLE ((stream.drop 4).take 4) →
      fromLE ((stream.drop 4).take 4) - 8 ≤ (stream.drop 8).length →
      recvDecode stream
        = parseRecords ((stream.drop 8).take (fromLE ((stream.drop 4).take 4) - 8))) ∧
    (∀ body : List Nat, (∀ b ∈ body, b < 256) →
      (∃ es, parseRecords body = .ok es ∧ rawRecords es = body ∧
        ∀ e ∈ es, utf8Valid e.2 = true) ∨
      parseRecords body = .error .invalidUtf8 ∨
      parseRecords body = .error .panicked) ∧
    (∀ (es : List (Nat × List Nat)) (tail : List Nat),
      (∀ f ∈ es, f.1 < 2 ^ 64 ∧ f.2.length < 2 ^ 32 ∧ utf8Valid f.2 = true) →
      tail ≠ [] → tail.length < 12 + fromLE ((tail.drop 8).take 4) →
      parseRecords (rawRecords es ++ tail) = .error .panicked) := by
  refine ⟨?_, fun body hb => parseRecords_trichotomy body hb, ?_⟩
  · intro stream h4 hm hv hd4 h8le hlen
    rw [recvDecode, if_neg (by omega), if_neg (not_not_intro hm), if_neg (not_not_intro hv),
      if_neg (by omega), if_neg (by omega), if_neg (by omega)]
  · intro es tail hes hne hshort
    rw [parseRecords_rawRecords_append es tail hes, parseRecords_overrun tail hne hshort]

/-- Witness for C5's amended statement: the total-length window on the
counterexample stream, the trichotomy at the 1-byte body `[0]`, and
the overrun panic after zero well-formed records. -/
theorem manifest_parse_amended_witness :
    recvDecode ([115, 102, 45, 3] ++ toLE 4 9 ++ [0])
      = parseRecords ((([115, 102, 45, 3] ++ toLE 4 9 ++ [0]).drop 8).take
          (fromLE ((([115, 102, 45, 3] ++ toLE 4 9 ++ [0]).drop 4).take 4) - 8)) ∧
    ((∃ es, parseRecords [0] = .ok es ∧ rawRecords es = [0] ∧
        ∀ e ∈ es, utf8Valid e.2 = true) ∨
      parseRecords [0] = .error .invalidUtf8 ∨ parseRecords [0] = .error .panicked) ∧
    parseRecords (rawRecords [] ++ [0]) = .error .panicked :=
  ⟨manifest_parse_amended.1 _ (by decide) (by decide) (by decide) (by decide)
      (by decide) (by decide),
   manifest_parse_amended.2.1 [0] (by decide),
   manifest_parse_amended.2.2 [] [0] (by simp) (by decide) (by decide)⟩

/-- C2 (code bug): on the manifest paths `"a/bc/d"` and `"a/b"` (byte
lists below), which share the directory-boundary-aligned common part
`"a/"`, the running shrink of `recv` keeps the whole first name —
`zip` finds no differing byte because the second name is shorter — so
the separator-truncated result has length 5 (`"a/bc/"`), which is not
a leading part of `"a/b"` at all; the strip slice
`&name[5..]` on the 3-byte name `"a/b"` is out of bounds (a panic). -/
theorem common_strip_bug_eval :
    commonPrefixLen .strip [[97, 47, 98, 99, 47, 100], [97, 47, 98]] = 5 ∧
    ((runningCommon .strip [[97, 47, 98, 99, 47, 100], [97, 47, 98]]).getD []).take 5
      = [97, 47, 98, 99, 47] ∧
    ([97, 47, 98, 99, 47] : List Nat).isPrefixOf [97, 47, 98] = false ∧
    ([97, 47, 98] : List Nat).length < 5 := by
  decide

/-- C7 (code bug): with `fileA` (declared length 6, a 3-byte chunk then
a read error) followed by `fileB`, the sending session completes
successfully: the `while let Ok(n)` copy loop swallows the read error,
streams only 3 of the declared 6 bytes, and continues with the next
file instead of aborting. -/
theorem send_read_error_swallowed_eval :
    streamFiles [fileA, fileB] = .ok [1, 2, 3, 9] ∧
    (∃ out, sendSession [fileA, fileB] = .ok out) ∧
    fileA.meta = 6 ∧ (copyLoop fileA.reads).length = 3 := by
  refine ⟨rfl, ⟨_, rfl⟩, rfl, rfl⟩

end SF
